import Mathlib

/-!
Verification development for the HyperOS-MVP task execution controller.

Part 1 embeds the frontend perceive-decide-act loop from
`src/HyperOS-MVP-main/src/App.tsx` (`handleCommand`): a bounded `for` loop
(`maxCycles = 15`) that posts `{command, history}` to the backend `/cycle`
endpoint, appends one step per successful cycle with `step = history.length + 1`,
and breaks on fetch failure, an `error` status, a `complete` status, or a
verification whose `next_action.type` is `done`.

Part 2 models the Task Execution Controller of the backend
(`agent-core/agent.py` / `agent-core/main.py`); those files are referenced by
the repository's docs (`ARCHITECTURE.md`, `README`) but are absent from the
source tree, so the controller is modelled from the spec.

Part 3 embeds the Electron IPC bridge (`electron/preload.ts`,
`electron/security.ts`) and the window toggle from the Electron main process.
-/

/-! ### Part 1: frontend loop from src/HyperOS-MVP-main/src/App.tsx -/

/-- The `action` object of a step as used by `App.tsx` (`type`, optional
`target`, `reasoning`, optional `coords_1000`, optional `key`). -/
structure AppAction where
  type : String
  target : Option String
  reasoning : String
  coords1000 : Option (Int × Int)
  key : Option String
  deriving Repr, DecidableEq

/-- The `verification` object of a cycle response; only
`verification.next_action?.type` is inspected by the loop. -/
structure AppVerification where
  nextActionType : Option String
  deriving Repr, DecidableEq

/-- One entry of the `history` array built by `handleCommand` in `App.tsx`. -/
structure AppStep where
  step : Nat
  analysis : String
  action : AppAction
  verification : Option AppVerification
  deriving Repr, DecidableEq

/-- The observable outcome of one `fetch('/cycle')` call: `fetchFailure`
covers a thrown network error, a non-ok HTTP response and a JSON failure (all
reach the `catch` block); `success` carries the parsed response fields. -/
inductive CycleResult where
  | fetchFailure
  | success (status : String) (screenState : String) (action : AppAction)
      (verification : Option AppVerification)
  deriving Repr, DecidableEq

/-- The constant `maxCycles = 15` from `App.tsx`. -/
def maxCycles : Nat := 15

/-- The check `data.verification && data.verification.next_action?.type === 'done'`. -/
def doneSignal : Option AppVerification → Bool
  | some v => v.nextActionType == some "done"
  | none => false

/-- The body of the `for (let i = 0; i < maxCycles; i++)` loop of
`handleCommand`: on fetch failure or an `error` status the loop breaks without
recording a step; otherwise a step with index `history.length + 1` is pushed,
and the loop breaks after pushing when the status is `complete` or the
verification signals `done`. -/
def handleCommandLoop (cycle : List AppStep → CycleResult) :
    Nat → List AppStep → List AppStep
  | 0, h => h
  | n + 1, h =>
    match cycle h with
    | .fetchFailure => h
    | .success status screenState action verification =>
      if status == "error" then h
      else
        let s : AppStep := ⟨h.length + 1, screenState, action, verification⟩
        if status == "complete" || doneSignal verification then h ++ [s]
        else handleCommandLoop cycle n (h ++ [s])

/-- A full run of the `handleCommand` loop starting from the empty history. -/
def handleCommandRun (cycle : List AppStep → CycleResult) : List AppStep :=
  handleCommandLoop cycle maxCycles []

/-- Embeds `handleCommand` including the entry guard
`if (!input.trim() || isProcessing) return`. -/
def handleCommand (input : String) (isProcessing : Bool)
    (cycle : List AppStep → CycleResult) : Option (List AppStep) :=
  if input.trim == "" || isProcessing then none else some (handleCommandRun cycle)

theorem handleCommandLoop_length_le (cycle : List AppStep → CycleResult) :
    ∀ (n : Nat) (h : List AppStep),
      (handleCommandLoop cycle n h).length ≤ h.length + n := by
  intro n
  induction n with
  | zero => intro h; simp [handleCommandLoop]
  | succ n ih =>
    intro h
    rw [handleCommandLoop]
    cases hc : cycle h with
    | fetchFailure => simp
    | success status screenState action verification =>
      by_cases he : status == "error"
      · simp [he]
      · by_cases hd : (status == "complete" || doneSignal verification)
        · simp [he, hd]
        · simp only [he, hd, Bool.false_eq_true, if_false]
          have := ih (h ++ [⟨h.length + 1, screenState, action, verification⟩])
          simp at this ⊢
          omega

/-- The list `List.range' 1` grows by appending the next index at the right. -/
theorem range_one_concat (n : Nat) :
    List.range' 1 (n + 1) = List.range' 1 n ++ [n + 1] := by
  have := List.range'_1_concat 1 n
  simpa [Nat.add_comm] using this

theorem handleCommandLoop_indices (cycle : List AppStep → CycleResult) :
    ∀ (n : Nat) (h : List AppStep),
      h.map (fun s => s.step) = List.range' 1 h.length →
      (handleCommandLoop cycle n h).map (fun s => s.step) =
        List.range' 1 (handleCommandLoop cycle n h).length := by
  intro n
  induction n with
  | zero => intro h hh; simpa [handleCommandLoop] using hh
  | succ n ih =>
    intro h hh
    rw [handleCommandLoop]
    cases hc : cycle h with
    | fetchFailure => simpa using hh
    | success status screenState action verification =>
      by_cases he : status == "error"
      · simpa [he] using hh
      · have happ : (h ++ [(⟨h.length + 1, screenState, action, verification⟩ : AppStep)]).map
              (fun s => s.step) =
            List.range' 1 (h ++ [(⟨h.length + 1, screenState, action, verification⟩ : AppStep)]).length := by
          simp [hh, range_one_concat]
        by_cases hd : (status == "complete" || doneSignal verification)
        · simpa [he, hd] using happ
        · simp only [he, hd, Bool.false_eq_true, if_false]
          exact ih _ happ

/-! ### Part 2: spec-modelled Task Execution Controller

Modelled from the spec: the backend Task Execution Controller
(`agent-core/agent.py` with `MAX_STEPS = 20` and `agent-core/main.py` with the
`POST /execute` endpoint) is referenced by the repository's documentation but
missing from the source tree.  The data model (`ActionSpec`, `SafetyZone`,
`Step`), the `SafetyValidator`, the bounded loop with cooperative cancellation
and the `submit` boundary checks below follow the spec's words (sections 3,
4.1, 4.2 and 7).
-/

/-- Modelled from the spec: the closed tagged union of action variants
(`Click`, `TypeText`, `PressKey`, `Hotkey`, `Wait`, `Done`). -/
inductive ActionSpec where
  | click (x y : Int)
  | typeText (text : String) (coords : Option (Int × Int))
  | pressKey (key : String)
  | hotkey (keys : List String)
  | wait (seconds : Nat)
  | done (reason : String)
  deriving Repr, DecidableEq

/-- Modelled from the spec: an axis-aligned rectangle plus a human-readable
reason, used by the SafetyValidator. -/
structure SafetyZone where
  left : Int
  top : Int
  right : Int
  bottom : Int
  reason : String
  deriving Repr, DecidableEq

def pointInZone (x y : Int) (z : SafetyZone) : Bool :=
  decide (z.left ≤ x) && decide (x ≤ z.right) &&
    decide (z.top ≤ y) && decide (y ≤ z.bottom)

/-- The coordinate a coordinate-bearing action resolves to (`Click`, and
`TypeText` when it carries coordinates). -/
def coordsOf : ActionSpec → Option (Int × Int)
  | .click x y => some (x, y)
  | .typeText _ c => c
  | _ => none

/-- Whether the action's point falls inside any configured SafetyZone. -/
def inAnyZone (zones : List SafetyZone) (a : ActionSpec) : Bool :=
  match coordsOf a with
  | some p => zones.any (pointInZone p.1 p.2)
  | none => false

def textOf : ActionSpec → Option String
  | .typeText t _ => some t
  | _ => none

/-- Whether a character list starts with the given pattern. -/
def startsWithChars : List Char → List Char → Bool
  | _, [] => true
  | [], _ :: _ => false
  | c :: cs, p :: ps => c == p && startsWithChars cs ps

/-- Whether a character list contains the given pattern as a contiguous run. -/
def containsChars : List Char → List Char → Bool
  | [], pat => pat.isEmpty
  | c :: rest, pat => startsWithChars (c :: rest) pat || containsChars rest pat

/-- Modelled from the spec: text-bearing actions are checked against a
blocklist of destructive command patterns (substring match). -/
def blockedText (blocklist : List String) (a : ActionSpec) : Bool :=
  match textOf a with
  | some t => blocklist.any (fun pat => containsChars t.data pat.data)
  | none => false

inductive SafetyDecision where
  | approved
  | rejected (reason : String)
  deriving Repr, DecidableEq

/-- The first configured SafetyZone containing the action's point, if any. -/
def zoneHit (zones : List SafetyZone) (a : ActionSpec) : Option SafetyZone :=
  match coordsOf a with
  | some p => zones.find? (pointInZone p.1 p.2)
  | none => none

/-- Modelled from the spec: `SafetyValidator.validate` — coordinate-bearing
actions whose point falls in a configured SafetyZone are rejected with that
zone's reason; text-bearing actions matching the blocklist are rejected;
everything else is approved.  It never mutates the action. -/
def validate (a : ActionSpec) (zones : List SafetyZone) (blocklist : List String) :
    SafetyDecision :=
  match zoneHit zones a with
  | some z => .rejected z.reason
  | none =>
    if blockedText blocklist a then .rejected "destructive text pattern" else .approved

/-- Modelled from the spec: a Step's outcome. -/
inductive StepOutcome where
  | executed
  | rejected (reason : String)
  | errored (reason : String)
  deriving Repr, DecidableEq

/-- Modelled from the spec: one loop iteration's record.  `action` is `none`
for a step recorded on an oracle failure or an unparseable response, where no
ActionSpec exists. -/
structure TaskStep where
  index : Nat
  rationale : String
  action : Option ActionSpec
  outcome : StepOutcome
  deriving Repr, DecidableEq

/-- Modelled from the spec: Task status values. -/
inductive TaskStatus where
  | running
  | completed
  | timedOut
  | cancelled
  | failed
  deriving Repr, DecidableEq

/-- The raw shape of an oracle response before parsing: the six known action
variants plus an unknown tag. -/
inductive RawAction where
  | rawClick (x y : Int)
  | rawTypeText (text : String) (coords : Option (Int × Int))
  | rawPressKey (key : String)
  | rawHotkey (keys : List String)
  | rawWait (seconds : Nat)
  | rawDone (reason : String)
  | rawUnknown (tag : String)
  deriving Repr, DecidableEq

/-- Modelled from the spec: parsing the oracle's response into an ActionSpec
is a single exhaustive match that fails closed — an unknown tag parses to
`none` and is treated as an oracle failure. -/
def parseAction : RawAction → Option ActionSpec
  | .rawClick x y => some (.click x y)
  | .rawTypeText t c => some (.typeText t c)
  | .rawPressKey k => some (.pressKey k)
  | .rawHotkey ks => some (.hotkey ks)
  | .rawWait s => some (.wait s)
  | .rawDone r => some (.done r)
  | .rawUnknown _ => none

/-- The oracle port's reply: a failure, or a rationale plus a raw action. -/
inductive OracleReply where
  | failure (message : String)
  | reply (rationale : String) (raw : RawAction)
  deriving Repr, DecidableEq

/-- Modelled from the spec: `MAX_STEPS` defaults to 20. -/
def MAX_STEPS : Nat := 20

/-- Modelled from the spec: `MAX_WAIT` defaults to 10; `Wait` values above the
bound are silently clamped, not rejected. -/
def MAX_WAIT : Nat := 10

/-- Clamp a `Wait` action's seconds to `MAX_WAIT` before handing it to the
Action Executor; every other action is handed over unchanged. -/
def clampAction : ActionSpec → ActionSpec
  | .wait s => .wait (min s MAX_WAIT)
  | a => a

/-- The completion reason when the action is `Done`, else `none`. -/
def isDoneAction : ActionSpec → Option String
  | .done r => some r
  | _ => none

/-- Controller configuration: the configurable step bound, the SafetyZones and
the text blocklist. -/
structure ControllerConfig where
  maxSteps : Nat
  zones : List SafetyZone
  blocklist : List String

/-- The loop's environment: the Perception/Decision Oracle (a function of the
history so far), the CancellationToken as observed at each iteration boundary
(indexed by the number of completed steps), and the Action Executor's
success/failure per action. -/
structure LoopEnv where
  oracle : List TaskStep → OracleReply
  cancelAt : Nat → Bool
  executorOk : ActionSpec → Bool

/-- The controller's per-task state: the HistoryStore content, the log of
actions passed to the Action Executor port, the number of oracle invocations,
and the Task status. -/
structure LoopState where
  history : List TaskStep
  invoked : List ActionSpec
  oracleCalls : Nat
  status : TaskStatus
  deriving Repr, DecidableEq

def initLoopState : LoopState := ⟨[], [], 0, .running⟩

/-- Append one step to the history with the next 1-based index. -/
def recordStep (st : LoopState) (rationale : String) (a : Option ActionSpec)
    (o : StepOutcome) : LoopState :=
  { st with history := st.history ++ [⟨st.history.length + 1, rationale, a, o⟩] }

/-- Modelled from the spec: the bounded loop of section 4.1, with fuel equal
to the remaining step budget.  Each iteration: (1) check the
CancellationToken at the boundary; (2) invoke the oracle — a failure records
an `Errored` step and finalizes `Failed` with no retry; (3) parse the
response — an unparseable response takes the failure path; (4) run the
SafetyValidator — a rejection records a `Rejected` step and finalizes `Failed`
without invoking the Action Executor; (5) a `Done` action records an
`Executed` step and finalizes `Completed` without invoking the Action
Executor; (6) otherwise the clamped action is passed to the Action Executor —
a failure there records an `Errored` step and finalizes `Failed`; (7) on
success an `Executed` step is appended and the loop repeats.  Exhausted fuel
finalizes `TimedOut`. -/
def runLoop (cfg : ControllerConfig) (env : LoopEnv) : Nat → LoopState → LoopState
  | 0, st => { st with status := .timedOut }
  | n + 1, st =>
    if env.cancelAt st.history.length then { st with status := .cancelled }
    else
      let st1 := { st with oracleCalls := st.oracleCalls + 1 }
      match env.oracle st.history with
      | .failure msg => { recordStep st1 "" none (.errored msg) with status := .failed }
      | .reply rationale raw =>
        match parseAction raw with
        | none =>
          { recordStep st1 rationale none (.errored "unparseable oracle response") with
              status := .failed }
        | some a =>
          match validate a cfg.zones cfg.blocklist with
          | .rejected reason =>
            { recordStep st1 rationale (some a) (.rejected reason) with status := .failed }
          | .approved =>
            match isDoneAction a with
            | some _ =>
              { recordStep st1 rationale (some a) .executed with status := .completed }
            | none =>
              let a' := clampAction a
              let st2 := { st1 with invoked := st1.invoked ++ [a'] }
              if env.executorOk a' then
                runLoop cfg env n (recordStep st2 rationale (some a') .executed)
              else
                { recordStep st2 rationale (some a') (.errored "executor failure") with
                    status := .failed }

/-- A full task run from the empty history with the configured step budget. -/
def runTask (cfg : ControllerConfig) (env : LoopEnv) : LoopState :=
  runLoop cfg env cfg.maxSteps initLoopState

/-- Modelled from the spec: submission-boundary error taxonomy. -/
inductive SubmitError where
  | validationError
  | conflictError
  | rateLimited
  deriving Repr, DecidableEq

/-- Modelled from the spec: `{status, history, stepsCompleted}` returned to
the submission caller. -/
structure SubmitResult where
  status : TaskStatus
  history : List TaskStep
  stepsCompleted : Nat
  deriving Repr, DecidableEq

/-- Modelled from the spec: `submit(description)` — a description whose
length is outside 1–1000 fails with `ValidationError`; a submit while another
Task is `Running` fails with `ConflictError`; a submit over the rolling-window
submission rate fails with `RateLimited`.  Only an accepted submit runs the
loop, and its result carries the full history and terminal status. -/
def submit (desc : String) (isRunning : Bool) (rateLimited : Bool)
    (cfg : ControllerConfig) (env : LoopEnv) : Except SubmitError SubmitResult :=
  if desc.length < 1 || 1000 < desc.length then .error .validationError
  else if isRunning then .error .conflictError
  else if rateLimited then .error .rateLimited
  else
    let final := runTask cfg env
    .ok ⟨final.status, final.history, final.history.length⟩

theorem isDoneAction_eq_some {a : ActionSpec} {r : String}
    (h : isDoneAction a = some r) : a = .done r := by
  cases a <;> simp_all [isDoneAction]

theorem isDoneAction_eq_none {a : ActionSpec} (h : isDoneAction a = none) :
    ∀ r, a ≠ .done r := by
  cases a <;> simp_all [isDoneAction]

theorem coordsOf_clamp (a : ActionSpec) : coordsOf (clampAction a) = coordsOf a := by
  cases a <;> simp [clampAction, coordsOf]

theorem clamp_ne_done {a : ActionSpec} (h : isDoneAction a = none) :
    ∀ r, clampAction a ≠ .done r := by
  cases a <;> simp_all [clampAction, isDoneAction]

theorem inAnyZone_clamp (zones : List SafetyZone) (a : ActionSpec) :
    inAnyZone zones (clampAction a) = inAnyZone zones a := by
  simp [inAnyZone, coordsOf_clamp]

theorem validate_done (r : String) (zones : List SafetyZone) (blocklist : List String) :
    validate (.done r) zones blocklist = .approved := by
  simp [validate, zoneHit, coordsOf, blockedText, textOf]

/-- An approved action's point lies in no configured SafetyZone. -/
theorem validate_approved_not_inZone {a : ActionSpec} {zones : List SafetyZone}
    {blocklist : List String} (h : validate a zones blocklist = .approved) :
    inAnyZone zones a = false := by
  unfold validate at h
  cases hz : zoneHit zones a with
  | some z => simp [hz] at h
  | none =>
    unfold zoneHit at hz
    unfold inAnyZone
    cases hco : coordsOf a with
    | none => simp
    | some p =>
      simp only [hco] at hz
      rw [List.find?_eq_none] at hz
      simp only [Bool.eq_false_iff]
      intro hex
      rw [List.any_eq_true] at hex
      obtain ⟨z, hzmem, hpz⟩ := hex
      exact hz z hzmem hpz

/-- A coordinate-bearing action whose point falls inside a configured
SafetyZone is rejected by the validator. -/
theorem inAnyZone_validate_rejected {a : ActionSpec} {zones : List SafetyZone}
    (blocklist : List String) (h : inAnyZone zones a = true) :
    ∃ r, validate a zones blocklist = .rejected r := by
  unfold inAnyZone at h
  cases hco : coordsOf a with
  | none => simp [hco] at h
  | some p =>
    simp only [hco, List.any_eq_true] at h
    have hsome : (zones.find? (pointInZone p.1 p.2)).isSome := by
      rw [List.find?_isSome]
      exact h
    cases hf : zones.find? (pointInZone p.1 p.2) with
    | none => rw [hf] at hsome; simp at hsome
    | some z =>
      exact ⟨z.reason, by simp [validate, zoneHit, hco, hf]⟩

/-- Invariant holding while the loop is still running: indices are 1-based
and contiguous, the oracle has been consulted exactly once per recorded step,
every recorded step so far was executed (with a parsed, non-`Done` action),
and every action passed to the executor was zone-free and not `Done`. -/
def midInv (cfg : ControllerConfig) (st : LoopState) : Prop :=
  st.history.map (fun s => s.index) = List.range' 1 st.history.length
  ∧ st.oracleCalls = st.history.length
  ∧ (∀ s ∈ st.history, s.outcome = .executed ∧ s.action ≠ none ∧
      ∀ r, s.action ≠ some (ActionSpec.done r))
  ∧ (∀ b ∈ st.invoked, inAnyZone cfg.zones b = false ∧ ∀ r, b ≠ ActionSpec.done r)

/-- Invariant of the loop's final state: indices contiguous, one oracle call
per step, a terminal status, no zone-hitting or `Done` action ever passed to
the executor, and the step-level finalization facts: a `Rejected` step means
the task failed and that step is the last; a `Done` action step means it was
recorded `Executed`, the task completed, and it is the last; an action-less
step means an oracle failure was recorded `Errored`, the task failed, and it
is the last. -/
def finalInv (cfg : ControllerConfig) (st : LoopState) : Prop :=
  st.history.map (fun s => s.index) = List.range' 1 st.history.length
  ∧ st.oracleCalls = st.history.length
  ∧ st.status ≠ .running
  ∧ (∀ b ∈ st.invoked, inAnyZone cfg.zones b = false ∧ ∀ r, b ≠ ActionSpec.done r)
  ∧ ∀ s ∈ st.history,
      ((∃ r, s.outcome = .rejected r) → st.status = .failed ∧ s.index = st.history.length)
      ∧ (∀ r, s.action = some (ActionSpec.done r) →
          s.outcome = .executed ∧ st.status = .completed ∧ s.index = st.history.length)
      ∧ (s.action = none →
          (∃ m, s.outcome = .errored m) ∧ st.status = .failed ∧ s.index = st.history.length)

/-- A terminal state reached without touching the history satisfies the final
invariant. -/
theorem finalInv_unchanged (cfg : ControllerConfig) (st : LoopState) (ts : TaskStatus)
    (hmid : midInv cfg st) (hts : ts ≠ .running) :
    finalInv cfg { st with status := ts } := by
  obtain ⟨hmap, hcalls, hsteps, hinvk⟩ := hmid
  refine ⟨hmap, hcalls, hts, hinvk, ?_⟩
  intro s hs
  obtain ⟨hex, hne, hnd⟩ := hsteps s hs
  refine ⟨?_, ?_, ?_⟩
  · rintro ⟨r, hr⟩; rw [hex] at hr; cases hr
  · intro r hr; exact absurd hr (hnd r)
  · intro hn; exact absurd hn hne

/-- A terminal state reached by appending one final step satisfies the final
invariant, provided the appended step's outcome and action match the terminal
status in the ways the loop can produce. -/
theorem finalInv_stop (cfg : ControllerConfig) (st : LoopState) (rat : String)
    (a : Option ActionSpec) (o : StepOutcome) (ts : TaskStatus)
    (hmap : st.history.map (fun s => s.index) = List.range' 1 st.history.length)
    (hcalls : st.oracleCalls = st.history.length + 1)
    (hsteps : ∀ s ∈ st.history, s.outcome = .executed ∧ s.action ≠ none ∧
        ∀ r, s.action ≠ some (ActionSpec.done r))
    (hinvk : ∀ b ∈ st.invoked, inAnyZone cfg.zones b = false ∧ ∀ r, b ≠ ActionSpec.done r)
    (hts : ts ≠ .running)
    (hrej : ∀ r, o = .rejected r → ts = .failed)
    (hdone : ∀ r, a = some (ActionSpec.done r) → o = .executed ∧ ts = .completed)
    (hnone : a = none → (∃ m, o = .errored m) ∧ ts = .failed) :
    finalInv cfg { recordStep st rat a o with status := ts } := by
  refine ⟨?_, ?_, hts, ?_, ?_⟩
  · simp [recordStep, hmap, range_one_concat]
  · simp [recordStep, hcalls]
  · simpa [recordStep] using hinvk
  · intro s hs
    simp only [recordStep, List.mem_append, List.mem_singleton] at hs
    rcases hs with hold | hnew
    · obtain ⟨hex, hne, hnd⟩ := hsteps s hold
      refine ⟨?_, ?_, ?_⟩
      · rintro ⟨r, hr⟩; rw [hex] at hr; cases hr
      · intro r hr; exact absurd hr (hnd r)
      · intro hn; exact absurd hn hne
    · subst hnew
      refine ⟨?_, ?_, ?_⟩
      · rintro ⟨r, hr⟩
        refine ⟨hrej r hr, ?_⟩
        simp [recordStep]
      · intro r hr
        obtain ⟨ho, hts'⟩ := hdone r hr
        exact ⟨ho, hts', by simp [recordStep]⟩
      · intro hn
        obtain ⟨hm, hts'⟩ := hnone hn
        exact ⟨hm, hts', by simp [recordStep]⟩

/-- Master lemma: from any mid-run state the loop reaches a state satisfying
the final invariant, appends at most `n` further steps, exhausts its whole
budget exactly when it times out, and appends at least one step whenever it
finalizes `Failed` or `Completed`. -/
theorem runLoop_master (cfg : ControllerConfig) (env : LoopEnv) :
    ∀ (n : Nat) (st : LoopState), midInv cfg st →
      finalInv cfg (runLoop cfg env n st)
      ∧ (runLoop cfg env n st).history.length ≤ st.history.length + n
      ∧ ((runLoop cfg env n st).status = .timedOut →
          (runLoop cfg env n st).history.length = st.history.length + n)
      ∧ (((runLoop cfg env n st).status = .failed ∨
            (runLoop cfg env n st).status = .completed) →
          st.history.length + 1 ≤ (runLoop cfg env n st).history.length) := by
  intro n
  induction n with
  | zero =>
    intro st hmid
    refine ⟨?_, ?_, ?_, ?_⟩
    · simpa [runLoop] using finalInv_unchanged cfg st .timedOut hmid (by simp)
    · simp [runLoop]
    · simp [runLoop]
    · intro h; rcases h with h | h <;> simp [runLoop] at h
  | succ n ih =>
    intro st hmid
    obtain ⟨hmap, hcalls, hsteps, hinvk⟩ := hmid
    have hmid' : midInv cfg st := ⟨hmap, hcalls, hsteps, hinvk⟩
    rw [runLoop]
    by_cases hca : env.cancelAt st.history.length
    · simp only [hca, if_true]
      refine ⟨finalInv_unchanged cfg st .cancelled hmid' (by simp), ?_, ?_, ?_⟩
      · simp
      · intro h; simp at h
      · intro h; rcases h with h | h <;> simp at h
    · simp only [hca, Bool.false_eq_true, if_false]
      split
      · rename_i msg ho
        refine ⟨?_, ?_, ?_, ?_⟩
        · refine finalInv_stop cfg _ "" none (.errored msg) .failed ?_ ?_ ?_ ?_
            (by simp) ?_ ?_ ?_
          · simpa using hmap
          · simp [hcalls]
          · simpa using hsteps
          · simpa using hinvk
          · intro r hr; cases hr
          · intro r hr; cases hr
          · intro _; exact ⟨⟨msg, rfl⟩, rfl⟩
        · simp [recordStep]
        · intro h; simp at h
        · intro _; simp [recordStep]
      · rename_i rationale raw ho
        split
        · rename_i hp
          refine ⟨?_, ?_, ?_, ?_⟩
          · refine finalInv_stop cfg _ rationale none
              (.errored "unparseable oracle response") .failed ?_ ?_ ?_ ?_
              (by simp) ?_ ?_ ?_
            · simpa using hmap
            · simp [hcalls]
            · simpa using hsteps
            · simpa using hinvk
            · intro r hr; cases hr
            · intro r hr; cases hr
            · intro _; exact ⟨⟨"unparseable oracle response", rfl⟩, rfl⟩
          · simp [recordStep]
          · intro h; simp at h
          · intro _; simp [recordStep]
        · rename_i a hp
          split
          · rename_i reason hv
            refine ⟨?_, ?_, ?_, ?_⟩
            · refine finalInv_stop cfg _ rationale (some a) (.rejected reason) .failed
                ?_ ?_ ?_ ?_ (by simp) ?_ ?_ ?_
              · simpa using hmap
              · simp [hcalls]
              · simpa using hsteps
              · simpa using hinvk
              · intro r _; rfl
              · intro r hr
                have ha : a = ActionSpec.done r := by
                  exact Option.some.inj hr
                rw [ha, validate_done] at hv
                cases hv
              · intro hcontra; cases hcontra
            · simp [recordStep]
            · intro h; simp at h
            · intro _; simp [recordStep]
          · rename_i hv
            split
            · rename_i r0 hida
              refine ⟨?_, ?_, ?_, ?_⟩
              · refine finalInv_stop cfg _ rationale (some a) .executed .completed
                  ?_ ?_ ?_ ?_ (by simp) ?_ ?_ ?_
                · simpa using hmap
                · simp [hcalls]
                · simpa using hsteps
                · simpa using hinvk
                · intro r hr; cases hr
                · intro r _; exact ⟨rfl, rfl⟩
                · intro hcontra; cases hcontra
              · simp [recordStep]
              · intro h; simp at h
              · intro _; simp [recordStep]
            · rename_i hida
              by_cases hex : env.executorOk (clampAction a)
              · simp only [hex, if_true]
                have hmidnext : midInv cfg
                    (recordStep
                      { st with
                          oracleCalls := st.oracleCalls + 1
                          invoked := st.invoked ++ [clampAction a] }
                      rationale (some (clampAction a)) .executed) := by
                  refine ⟨?_, ?_, ?_, ?_⟩
                  · simp [recordStep, hmap, range_one_concat]
                  · simp [recordStep, hcalls]
                  · intro s hs
                    simp only [recordStep, List.mem_append, List.mem_singleton] at hs
                    rcases hs with hold | hnew
                    · exact hsteps s hold
                    · subst hnew
                      refine ⟨rfl, by simp, ?_⟩
                      intro r hr
                      have := Option.some.inj hr
                      exact clamp_ne_done hida r this
                  · intro b hb
                    simp only [recordStep, List.mem_append, List.mem_singleton] at hb
                    rcases hb with hold | hnew
                    · exact hinvk b hold
                    · subst hnew
                      refine ⟨?_, clamp_ne_done hida⟩
                      rw [inAnyZone_clamp]
                      exact validate_approved_not_inZone hv
                obtain ⟨f1, f2, f3, f4⟩ := ih _ hmidnext
                have hlen' : (recordStep
                    { st with
                        oracleCalls := st.oracleCalls + 1
                        invoked := st.invoked ++ [clampAction a] }
                    rationale (some (clampAction a)) .executed).history.length =
                      st.history.length + 1 := by
                  simp [recordStep]
                refine ⟨f1, by omega, ?_, ?_⟩
                · intro h; have := f3 h; omega
                · intro h; have := f4 h; omega
              · simp only [hex, Bool.false_eq_true, if_false]
                refine ⟨?_, ?_, ?_, ?_⟩
                · refine finalInv_stop cfg _ rationale (some (clampAction a))
                    (.errored "executor failure") .failed ?_ ?_ ?_ ?_
                    (by simp) ?_ ?_ ?_
                  · simpa using hmap
                  · simp [hcalls]
                  · simpa using hsteps
                  · intro b hb
                    simp only [List.mem_append, List.mem_singleton] at hb
                    rcases hb with hold | hnew
                    · exact hinvk b hold
                    · subst hnew
                      refine ⟨?_, clamp_ne_done hida⟩
                      rw [inAnyZone_clamp]
                      exact validate_approved_not_inZone hv
                  · intro r hr; cases hr
                  · intro r hr
                    have := Option.some.inj hr
                    exact absurd this (clamp_ne_done hida r)
                  · intro hcontra; cases hcontra
                · simp [recordStep]
                · intro h; simp at h
                · intro _; simp [recordStep]

/-- The final invariant and step bounds for a full task run. -/
theorem runTask_master (cfg : ControllerConfig) (env : LoopEnv) :
    finalInv cfg (runTask cfg env)
    ∧ (runTask cfg env).history.length ≤ cfg.maxSteps
    ∧ ((runTask cfg env).status = .timedOut →
        (runTask cfg env).history.length = cfg.maxSteps)
    ∧ (((runTask cfg env).status = .failed ∨ (runTask cfg env).status = .completed) →
        1 ≤ (runTask cfg env).history.length) := by
  have hmid : midInv cfg initLoopState := by
    refine ⟨?_, ?_, ?_, ?_⟩ <;> simp [initLoopState]
  have h := runLoop_master cfg env cfg.maxSteps initLoopState hmid
  simpa [runTask, initLoopState] using h

/-- One loop iteration whose proposal the validator rejects: the task fails,
exactly the rejected step is appended, and the executor log is untouched. -/
theorem runLoop_step_rejected (cfg : ControllerConfig) (env : LoopEnv) (n : Nat)
    (st : LoopState) (rationale : String) (raw : RawAction) (a : ActionSpec)
    (reason : String)
    (hca : env.cancelAt st.history.length = false)
    (ho : env.oracle st.history = .reply rationale raw)
    (hp : parseAction raw = some a)
    (hv : validate a cfg.zones cfg.blocklist = .rejected reason) :
    (runLoop cfg env (n + 1) st).status = .failed
    ∧ (runLoop cfg env (n + 1) st).history =
        st.history ++ [⟨st.history.length + 1, rationale, some a, .rejected reason⟩]
    ∧ (runLoop cfg env (n + 1) st).invoked = st.invoked := by
  rw [runLoop]
  simp [hca, ho, hp, hv, recordStep]

/-- One loop iteration whose proposal is `Done`: the task completes, exactly
the executed `Done` step is appended, and the executor log is untouched. -/
theorem runLoop_step_done (cfg : ControllerConfig) (env : LoopEnv) (n : Nat)
    (st : LoopState) (rationale : String) (raw : RawAction) (reason : String)
    (hca : env.cancelAt st.history.length = false)
    (ho : env.oracle st.history = .reply rationale raw)
    (hp : parseAction raw = some (.done reason)) :
    (runLoop cfg env (n + 1) st).status = .completed
    ∧ (runLoop cfg env (n + 1) st).history =
        st.history ++ [⟨st.history.length + 1, rationale, some (.done reason), .executed⟩]
    ∧ (runLoop cfg env (n + 1) st).invoked = st.invoked := by
  rw [runLoop]
  simp [hca, ho, hp, validate_done, isDoneAction, recordStep]

/-- One loop iteration on which the oracle fails: the task fails, exactly one
`Errored` step is appended, the oracle was consulted exactly once more (no
retry), and the executor log is untouched. -/
theorem runLoop_step_oracle_failure (cfg : ControllerConfig) (env : LoopEnv)
    (n : Nat) (st : LoopState) (msg : String)
    (hca : env.cancelAt st.history.length = false)
    (ho : env.oracle st.history = .failure msg) :
    (runLoop cfg env (n + 1) st).status = .failed
    ∧ (runLoop cfg env (n + 1) st).history =
        st.history ++ [⟨st.history.length + 1, "", none, .errored msg⟩]
    ∧ (runLoop cfg env (n + 1) st).oracleCalls = st.oracleCalls + 1
    ∧ (runLoop cfg env (n + 1) st).invoked = st.invoked := by
  rw [runLoop]
  simp [hca, ho, recordStep]

/-- One loop iteration whose reply does not parse to a known action variant:
treated as an oracle failure — the task fails and exactly one `Errored` step
is appended, with no further oracle consultation. -/
theorem runLoop_step_unparseable (cfg : ControllerConfig) (env : LoopEnv)
    (n : Nat) (st : LoopState) (rationale : String) (raw : RawAction)
    (hca : env.cancelAt st.history.length = false)
    (ho : env.oracle st.history = .reply rationale raw)
    (hp : parseAction raw = none) :
    (runLoop cfg env (n + 1) st).status = .failed
    ∧ (runLoop cfg env (n + 1) st).history = st.history ++
        [⟨st.history.length + 1, rationale, none, .errored "unparseable oracle response"⟩]
    ∧ (runLoop cfg env (n + 1) st).oracleCalls = st.oracleCalls + 1
    ∧ (runLoop cfg env (n + 1) st).invoked = st.invoked := by
  rw [runLoop]
  simp [hca, ho, hp, recordStep]

/-! ### Part 3: Electron IPC bridge and window toggle -/

/-- The `VALID_CHANNELS.send` whitelist from `src/electron/security.ts`. -/
def VALID_CHANNELS_send : List String :=
  ["set-click-through", "show-window", "hide-window", "quit-app"]

/-- The `VALID_CHANNELS.invoke` whitelist from `src/electron/security.ts`. -/
def VALID_CHANNELS_invoke : List String :=
  ["get-app-version", "get-visibility"]

/-- The `type` argument of `isValidChannel` in `src/electron/security.ts`. -/
inductive ChannelType where
  | send
  | invoke
  deriving Repr, DecidableEq

/-- Embeds `isValidChannel` from `src/electron/security.ts`. -/
def isValidChannel (channel : String) : ChannelType → Bool
  | .send => VALID_CHANNELS_send.contains channel
  | .invoke => VALID_CHANNELS_invoke.contains channel

/-- The observable behaviour of the legacy bridge's `invoke` in
`src/electron/preload.ts`: forward to `ipcRenderer.invoke`, or return a
rejected Promise carrying the error message. -/
inductive InvokeOutcome where
  | forwarded (channel : String)
  | rejectedPromise (message : String)
  deriving Repr, DecidableEq

/-- The `invoke` method of the legacy `ipcRenderer` bridge in `src/electron/preload.ts`:
whitelists `get-app-version` and `get-visibility`, and rejects every other
channel with `Invalid channel: <channel>`. -/
def legacyInvoke (channel : String) : InvokeOutcome :=
  if ["get-app-version", "get-visibility"].contains channel then .forwarded channel
  else .rejectedPromise ("Invalid channel: " ++ channel)

/-- The `send` method of the legacy `ipcRenderer` bridge in `src/electron/preload.ts`:
forwards only the four whitelisted channels and silently drops (returns
without calling `ipcRenderer.send`) everything else. -/
def legacySend (channel : String) : Option String :=
  if ["set-click-through", "show-window", "hide-window", "quit-app"].contains channel
  then some channel else none

/-- The Electron main process state visible to `toggleWindow`: the window (if
created) with its actual visibility, the persisted `windowState.isVisible`
flag, and whether the window holds focus. -/
structure OverlayState where
  mainWindow : Option Bool
  stateIsVisible : Bool
  focused : Bool
  deriving Repr, DecidableEq

/-- Embeds `toggleWindow` from the Electron main process: returns immediately when no
window exists; hides a visible window (setting `windowState.isVisible` to
false); shows and focuses a hidden window (setting `windowState.isVisible` to
true). -/
def toggleWindow (s : OverlayState) : OverlayState :=
  match s.mainWindow with
  | none => s
  | some visible =>
    if visible then { s with mainWindow := some false, stateIsVisible := false }
    else { s with mainWindow := some true, stateIsVisible := true, focused := true }

/-! ### Concrete fixtures used by the claim witnesses -/

/-- A SafetyZone covering the top-left corner. -/
def zoneTopLeft : SafetyZone := ⟨0, 0, 50, 50, "window close control"⟩

/-- Default-bound configuration with one top-left SafetyZone. -/
def cfgZoned : ControllerConfig := ⟨MAX_STEPS, [zoneTopLeft], []⟩

/-- Default-bound configuration with no SafetyZones and no blocklist. -/
def cfgPlain : ControllerConfig := ⟨MAX_STEPS, [], []⟩

/-- An environment whose oracle always proposes `Click(10,10)` (inside the
top-left zone), with no cancellation and a succeeding executor. -/
def envClickZone : LoopEnv :=
  ⟨fun _ => .reply "click the corner" (.rawClick 10 10), fun _ => false, fun _ => true⟩

/-- An environment whose oracle immediately proposes `Done`. -/
def envDoneNow : LoopEnv :=
  ⟨fun _ => .reply "all done" (.rawDone "opened notepad"), fun _ => false, fun _ => true⟩

/-- An environment whose oracle always fails. -/
def envOracleDown : LoopEnv :=
  ⟨fun _ => .failure "network error", fun _ => false, fun _ => true⟩

/-- An environment whose CancellationToken is already set at the first
iteration boundary. -/
def envCancelNow : LoopEnv :=
  ⟨fun _ => .reply "r" (.rawClick 100 100), fun _ => true, fun _ => true⟩

/-- A window that exists and is currently visible. -/
def overlayVisible : OverlayState := ⟨some true, true, false⟩

/-! ### Claim theorems -/

/-- Claim C1: for every accepted task, the perceive-decide-act loop executes
at most `MAX_STEPS` iterations, so `stepsCompleted <= MAX_STEPS` holds at
termination and the loop always terminates (it is a total function) even when
the oracle never returns a `Done` action.  The frontend loop in `App.tsx` is
bounded by its own `maxCycles = 15`; the spec-modelled controller is bounded
by its configurable `maxSteps`, whose default is `MAX_STEPS = 20`. -/
theorem claim_step_bound :
    (∀ cycle : List AppStep → CycleResult,
      (handleCommandRun cycle).length ≤ maxCycles)
    ∧ (∀ (cfg : ControllerConfig) (env : LoopEnv),
        (runTask cfg env).history.length ≤ cfg.maxSteps)
    ∧ (∀ (zones : List SafetyZone) (blocklist : List String) (env : LoopEnv),
        (runTask ⟨MAX_STEPS, zones, blocklist⟩ env).history.length ≤ MAX_STEPS) := by
  refine ⟨?_, ?_, ?_⟩
  · intro cycle
    simpa [handleCommandRun] using handleCommandLoop_length_le cycle maxCycles []
  · intro cfg env
    exact (runTask_master cfg env).2.1
  · intro zones blocklist env
    exact (runTask_master ⟨MAX_STEPS, zones, blocklist⟩ env).2.1

/-- Claim C4: for every Task and every i, the i-th recorded step has index
exactly i: indices are 1-based, strictly increasing and contiguous
(`map index = [1, ..., length]`), regardless of which terminal status the
task reaches — in the `App.tsx` loop and in the spec-modelled controller. -/
theorem claim_step_indices_contiguous :
    (∀ cycle : List AppStep → CycleResult,
      (handleCommandRun cycle).map (fun s => s.step) =
        List.range' 1 (handleCommandRun cycle).length)
    ∧ ∀ (cfg : ControllerConfig) (env : LoopEnv),
        (runTask cfg env).history.map (fun s => s.index) =
          List.range' 1 (runTask cfg env).history.length := by
  refine ⟨?_, ?_⟩
  · intro cycle
    simpa [handleCommandRun] using
      handleCommandLoop_indices cycle maxCycles [] (by simp)
  · intro cfg env
    exact ((runTask_master cfg env).1).1

/-- Claim C2: a `Click` or `TypeText` action whose coordinates fall inside
any configured SafetyZone is never passed to the Action Executor: every
action in the executor log is zone-free; an in-zone action is always
validator-rejected; a `Rejected` step means the task finalized `Failed` with
that step last; and the iteration that rejects appends exactly the `Rejected`
step while leaving the executor log untouched (Reject strictly before
Execute). -/
theorem claim_safety_reject_before_execute (cfg : ControllerConfig) (env : LoopEnv) :
    (∀ a ∈ (runTask cfg env).invoked, inAnyZone cfg.zones a = false)
    ∧ (∀ a : ActionSpec, inAnyZone cfg.zones a = true →
        ∃ r, validate a cfg.zones cfg.blocklist = .rejected r)
    ∧ (∀ s ∈ (runTask cfg env).history, (∃ r, s.outcome = .rejected r) →
        (runTask cfg env).status = .failed ∧
          s.index = (runTask cfg env).history.length)
    ∧ (∀ (n : Nat) (st : LoopState) (rationale : String) (raw : RawAction)
        (a : ActionSpec) (reason : String),
        env.cancelAt st.history.length = false →
        env.oracle st.history = .reply rationale raw →
        parseAction raw = some a →
        validate a cfg.zones cfg.blocklist = .rejected reason →
        (runLoop cfg env (n + 1) st).status = .failed
        ∧ (runLoop cfg env (n + 1) st).history =
            st.history ++ [⟨st.history.length + 1, rationale, some a, .rejected reason⟩]
        ∧ (runLoop cfg env (n + 1) st).invoked = st.invoked) := by
  obtain ⟨⟨hmap, hcalls, hterm, hinvk, hsteps⟩, _, _, _⟩ := runTask_master cfg env
  refine ⟨?_, ?_, ?_, ?_⟩
  · intro a ha
    exact (hinvk a ha).1
  · intro a ha
    exact inAnyZone_validate_rejected cfg.blocklist ha
  · intro s hs hr
    exact (hsteps s hs).1 hr
  · intro n st rationale raw a reason hca ho hp hv
    exact runLoop_step_rejected cfg env n st rationale raw a reason hca ho hp hv

/-- Witness for C2 at Scenario B: zone `[0,50]×[0,50]`, oracle proposing
`Click(10,10)` — the task fails with the `Rejected` step recorded last. -/
theorem claim_safety_reject_before_execute_witness :
    (runTask cfgZoned envClickZone).status = .failed
    ∧ (⟨1, "click the corner", some (.click 10 10),
          .rejected "window close control"⟩ : TaskStep).index
        = (runTask cfgZoned envClickZone).history.length :=
  (claim_safety_reject_before_execute cfgZoned envClickZone).2.2.1
    ⟨1, "click the corner", some (.click 10 10), .rejected "window close control"⟩
    (by decide) ⟨"window close control", rfl⟩

/-- Claim C5: whenever the oracle's proposed action is `Done`, the controller
records an `Executed` step carrying the completion reason, finalizes the task
`Completed`, and stops, without invoking the Action Executor for `Done`: no
`Done` action ever appears in the executor log; any `Done` step in a final
history was recorded `Executed`, completed the task and is the last step;
and the iteration receiving `Done` appends exactly that step while leaving
the executor log untouched. -/
theorem claim_done_completes_without_executor (cfg : ControllerConfig) (env : LoopEnv) :
    (∀ a ∈ (runTask cfg env).invoked, ∀ r, a ≠ ActionSpec.done r)
    ∧ (∀ s ∈ (runTask cfg env).history, ∀ r, s.action = some (ActionSpec.done r) →
        s.outcome = .executed ∧ (runTask cfg env).status = .completed ∧
          s.index = (runTask cfg env).history.length)
    ∧ (∀ (n : Nat) (st : LoopState) (rationale reason : String) (raw : RawAction),
        env.cancelAt st.history.length = false →
        env.oracle st.history = .reply rationale raw →
        parseAction raw = some (.done reason) →
        (runLoop cfg env (n + 1) st).status = .completed
        ∧ (runLoop cfg env (n + 1) st).history = st.history ++
            [⟨st.history.length + 1, rationale, some (.done reason), .executed⟩]
        ∧ (runLoop cfg env (n + 1) st).invoked = st.invoked) := by
  obtain ⟨⟨hmap, hcalls, hterm, hinvk, hsteps⟩, _, _, _⟩ := runTask_master cfg env
  refine ⟨?_, ?_, ?_⟩
  · intro a ha
    exact (hinvk a ha).2
  · intro s hs r hr
    exact (hsteps s hs).2.1 r hr
  · intro n st rationale reason raw hca ho hp
    exact runLoop_step_done cfg env n st rationale raw reason hca ho hp

/-- Witness for C5: an oracle that immediately proposes
`Done("opened notepad")` — the single step is `Executed`, the task completes,
and the step is the last one. -/
theorem claim_done_completes_without_executor_witness :
    (⟨1, "all done", some (.done "opened notepad"), .executed⟩ : TaskStep).outcome
        = .executed
    ∧ (runTask cfgPlain envDoneNow).status = .completed
    ∧ (⟨1, "all done", some (.done "opened notepad"), .executed⟩ : TaskStep).index
        = (runTask cfgPlain envDoneNow).history.length :=
  (claim_done_completes_without_executor cfgPlain envDoneNow).2.1
    ⟨1, "all done", some (.done "opened notepad"), .executed⟩
    (by decide) "opened notepad" rfl

/-- Claim C7: for every oracle failure (including an unparseable response)
the loop immediately terminates the task with status `Failed`, records the
failure reason in an `Errored` step, and performs no automatic retry and no
further iterations: the oracle is consulted exactly once per recorded step
(so a failure is never retried), any action-less step in a final history is
an `Errored` last step of a `Failed` task, and the failing iteration appends
exactly one step with exactly one additional oracle call. -/
theorem claim_oracle_failure_terminal (cfg : ControllerConfig) (env : LoopEnv) :
    ((runTask cfg env).oracleCalls = (runTask cfg env).history.length)
    ∧ (∀ s ∈ (runTask cfg env).history, s.action = none →
        (∃ m, s.outcome = .errored m) ∧ (runTask cfg env).status = .failed ∧
          s.index = (runTask cfg env).history.length)
    ∧ (∀ (n : Nat) (st : LoopState) (msg : String),
        env.cancelAt st.history.length = false →
        env.oracle st.history = .failure msg →
        (runLoop cfg env (n + 1) st).status = .failed
        ∧ (runLoop cfg env (n + 1) st).history =
            st.history ++ [⟨st.history.length + 1, "", none, .errored msg⟩]
        ∧ (runLoop cfg env (n + 1) st).oracleCalls = st.oracleCalls + 1)
    ∧ (∀ (n : Nat) (st : LoopState) (rationale : String) (raw : RawAction),
        env.cancelAt st.history.length = false →
        env.oracle st.history = .reply rationale raw →
        parseAction raw = none →
        (runLoop cfg env (n + 1) st).status = .failed
        ∧ (runLoop cfg env (n + 1) st).history = st.history ++
            [⟨st.history.length + 1, rationale, none,
              .errored "unparseable oracle response"⟩]) := by
  obtain ⟨⟨hmap, hcalls, hterm, hinvk, hsteps⟩, _, _, _⟩ := runTask_master cfg env
  refine ⟨hcalls, ?_, ?_, ?_⟩
  · intro s hs hn
    exact (hsteps s hs).2.2 hn
  · intro n st msg hca ho
    obtain ⟨h1, h2, h3, _⟩ := runLoop_step_oracle_failure cfg env n st msg hca ho
    exact ⟨h1, h2, h3⟩
  · intro n st rationale raw hca ho hp
    obtain ⟨h1, h2, _, _⟩ := runLoop_step_unparseable cfg env n st rationale raw hca ho hp
    exact ⟨h1, h2⟩

/-- Witness for C7: an oracle that fails with `network error` — the task
fails with one `Errored`, action-less step recorded last. -/
theorem claim_oracle_failure_terminal_witness :
    (∃ m, (⟨1, "", none, .errored "network error"⟩ : TaskStep).outcome
        = StepOutcome.errored m)
    ∧ (runTask cfgPlain envOracleDown).status = .failed
    ∧ (⟨1, "", none, .errored "network error"⟩ : TaskStep).index
        = (runTask cfgPlain envOracleDown).history.length :=
  (claim_oracle_failure_terminal cfgPlain envOracleDown).2.1
    ⟨1, "", none, .errored "network error"⟩ (by decide) rfl

/-- Claim C3: at most one Task runs at a time — a submit issued while another
task is `Running` returns `ConflictError` (for any validly sized description)
and never starts a second loop: an accepted submit implies no task was
running. -/
theorem claim_single_running_conflict (desc : String) (cfg : ControllerConfig)
    (env : LoopEnv) (rl : Bool)
    (h1 : 1 ≤ desc.length) (h2 : desc.length ≤ 1000) :
    submit desc true rl cfg env = .error .conflictError
    ∧ ∀ (running : Bool) (r : SubmitResult),
        submit desc running rl cfg env = .ok r → running = false := by
  have hc : (desc.length < 1 || 1000 < desc.length) = false := by
    simp only [Bool.or_eq_false_iff, decide_eq_false_iff_not]
    omega
  have hconf : submit desc true rl cfg env = .error .conflictError := by
    unfold submit
    rw [hc]
    simp
  refine ⟨hconf, ?_⟩
  intro running r hok
  cases running with
  | false => rfl
  | true => rw [hconf] at hok; cases hok

/-- Witness for C3: submitting `open notepad` while a task is running fails
fast with `ConflictError`. -/
theorem claim_single_running_conflict_witness :
    submit "open notepad" true false cfgPlain envDoneNow = .error .conflictError :=
  (claim_single_running_conflict "open notepad" cfgPlain envDoneNow false
    (by decide) (by decide)).1

/-- Claim C8: with the controller idle and the submission rate limit clear,
`submit` accepts a description if and only if its length is between 1 and
1000 characters; any description outside that range fails with
`ValidationError` — whatever the running/rate state — so no Task is created
and no loop iteration runs for it. -/
theorem claim_description_validation (desc : String) (cfg : ControllerConfig)
    (env : LoopEnv) :
    ((1 ≤ desc.length ∧ desc.length ≤ 1000) ↔
      ∃ r, submit desc false false cfg env = .ok r)
    ∧ (¬(1 ≤ desc.length ∧ desc.length ≤ 1000) →
        ∀ (running rl : Bool),
          submit desc running rl cfg env = .error .validationError) := by
  constructor
  · constructor
    · rintro ⟨h1, h2⟩
      have hc : (desc.length < 1 || 1000 < desc.length) = false := by
        simp only [Bool.or_eq_false_iff, decide_eq_false_iff_not]
        omega
      refine ⟨⟨(runTask cfg env).status, (runTask cfg env).history,
        (runTask cfg env).history.length⟩, ?_⟩
      unfold submit
      rw [hc]
      simp
    · rintro ⟨r, hr⟩
      by_contra hlen
      have hc : (desc.length < 1 || 1000 < desc.length) = true := by
        simp only [Bool.or_eq_true, decide_eq_true_eq]
        omega
      unfold submit at hr
      rw [hc] at hr
      simp at hr
  · intro hlen running rl
    have hc : (desc.length < 1 || 1000 < desc.length) = true := by
      simp only [Bool.or_eq_true, decide_eq_true_eq]
      omega
    unfold submit
    rw [hc]
    simp

/-- Witness for C8: the empty description is rejected with `ValidationError`
even while a task is running, and a short valid description is accepted. -/
theorem claim_description_validation_witness :
    submit "" true false cfgPlain envDoneNow = .error .validationError :=
  (claim_description_validation "" cfgPlain envDoneNow).2 (by decide) true false

/-- Claim C6 (amended): every terminal outcome returns a result whose
`history` field is present and equal to exactly the steps accumulated up to
termination (with `stepsCompleted` its length); for `Completed`, `Failed`,
and `TimedOut` (with a positive step budget) that history is non-empty — but
a task cancelled before its first step completes returns an empty (yet
present) history. -/
theorem claim_history_returned_at_termination (cfg : ControllerConfig)
    (env : LoopEnv) (hms : 1 ≤ cfg.maxSteps) :
    (runTask cfg env).status ≠ .running
    ∧ ((runTask cfg env).status = .completed ∨ (runTask cfg env).status = .failed ∨
        (runTask cfg env).status = .timedOut → (runTask cfg env).history ≠ [])
    ∧ (∀ desc : String, 1 ≤ desc.length → desc.length ≤ 1000 →
        submit desc false false cfg env =
          .ok ⟨(runTask cfg env).status, (runTask cfg env).history,
                (runTask cfg env).history.length⟩) := by
  obtain ⟨fin, hle, hto, hfc⟩ := runTask_master cfg env
  refine ⟨fin.2.2.1, ?_, ?_⟩
  · intro h hnil
    rcases h with h | h | h
    · have := hfc (Or.inr h)
      rw [hnil] at this
      simp at this
    · have := hfc (Or.inl h)
      rw [hnil] at this
      simp at this
    · have := hto h
      rw [hnil] at this
      simp at this
      omega
  · intro desc h1 h2
    have hc : (desc.length < 1 || 1000 < desc.length) = false := by
      simp only [Bool.or_eq_false_iff, decide_eq_false_iff_not]
      omega
    unfold submit
    rw [hc]
    simp

/-- Witness for C6 (amended): with an oracle that proposes `Done` at once,
the completed task's history is non-empty. -/
theorem claim_history_returned_at_termination_witness :
    (runTask cfgPlain envDoneNow).history ≠ [] :=
  (claim_history_returned_at_termination cfgPlain envDoneNow (by decide)).2.1
    (Or.inl (by decide))

/-- Counterexample to C6 as stated ("never an empty or missing history"): a
task whose CancellationToken is observed already set at the first iteration
boundary terminates with status `Cancelled` and an empty history, and that
empty history is what `submit` returns to the caller. -/
theorem claim_history_nonempty_counterexample :
    (runTask cfgPlain envCancelNow).status = .cancelled
    ∧ (runTask cfgPlain envCancelNow).history = []
    ∧ submit "do the thing" false false cfgPlain envCancelNow =
        .ok ⟨.cancelled, [], 0⟩ := by
  refine ⟨by decide, by decide, ?_⟩
  rfl

/-- Claim C9: the preload bridge's `invoke` forwards to `ipcRenderer.invoke`
if and only if the channel is `get-app-version` or `get-visibility`, and
returns a rejected Promise (`Invalid channel: <channel>`) for every other
channel; `send` forwards exactly the four whitelisted send channels and
silently drops all others — and both agree with `isValidChannel` from
`security.ts`. -/
theorem claim_ipc_channel_whitelist (c : String) :
    (legacyInvoke c = .forwarded c ↔ (c = "get-app-version" ∨ c = "get-visibility"))
    ∧ (¬(c = "get-app-version" ∨ c = "get-visibility") →
        legacyInvoke c = .rejectedPromise ("Invalid channel: " ++ c))
    ∧ (legacySend c = some c ↔
        (c = "set-click-through" ∨ c = "show-window" ∨ c = "hide-window" ∨
          c = "quit-app"))
    ∧ (¬(c = "set-click-through" ∨ c = "show-window" ∨ c = "hide-window" ∨
          c = "quit-app") → legacySend c = none)
    ∧ (isValidChannel c .invoke = true ↔ legacyInvoke c = .forwarded c)
    ∧ (isValidChannel c .send = true ↔ legacySend c = some c) := by
  have hinv : (["get-app-version", "get-visibility"].contains c) = true ↔
      (c = "get-app-version" ∨ c = "get-visibility") := by
    simp [List.contains_cons, List.contains_nil]
  have hsend : (["set-click-through", "show-window", "hide-window",
      "quit-app"].contains c) = true ↔
      (c = "set-click-through" ∨ c = "show-window" ∨ c = "hide-window" ∨
        c = "quit-app") := by
    simp [List.contains_cons, List.contains_nil]
  refine ⟨?_, ?_, ?_, ?_, ?_, ?_⟩
  · constructor
    · intro hf
      by_contra hmem
      rw [← hinv] at hmem
      simp only [Bool.not_eq_true] at hmem
      rw [legacyInvoke, hmem] at hf
      cases hf
    · intro hmem
      rw [legacyInvoke, hinv.mpr hmem]
      simp
  · intro hmem
    rw [← hinv] at hmem
    simp only [Bool.not_eq_true] at hmem
    rw [legacyInvoke, hmem]
    simp
  · constructor
    · intro hf
      by_contra hmem
      rw [← hsend] at hmem
      simp only [Bool.not_eq_true] at hmem
      rw [legacySend, hmem] at hf
      cases hf
    · intro hmem
      rw [legacySend, hsend.mpr hmem]
      simp
  · intro hmem
    rw [← hsend] at hmem
    simp only [Bool.not_eq_true] at hmem
    rw [legacySend, hmem]
    simp
  · constructor
    · intro hvc
      rw [isValidChannel] at hvc
      rw [legacyInvoke]
      rw [VALID_CHANNELS_invoke] at hvc
      rw [hvc]
      simp
    · intro hf
      by_contra hvc
      rw [isValidChannel, VALID_CHANNELS_invoke] at hvc
      simp only [Bool.not_eq_true] at hvc
      rw [legacyInvoke, hvc] at hf
      cases hf
  · constructor
    · intro hvc
      rw [isValidChannel] at hvc
      rw [legacySend]
      rw [VALID_CHANNELS_send] at hvc
      rw [hvc]
      simp
    · intro hf
      by_contra hvc
      rw [isValidChannel, VALID_CHANNELS_send] at hvc
      simp only [Bool.not_eq_true] at hvc
      rw [legacySend, hvc] at hf
      cases hf

/-- Witness for C9: an unlisted channel is rejected by `invoke` with the
`Invalid channel` error. -/
theorem claim_ipc_channel_whitelist_witness :
    legacyInvoke "open-devtools" = .rejectedPromise "Invalid channel: open-devtools" :=
  (claim_ipc_channel_whitelist "open-devtools").2.1 (by decide)

/-- Claim C10: `toggleWindow` is an involution on window visibility: when a
window exists, each call flips its visible state and sets
`windowState.isVisible` to the new value, so applying `toggleWindow` twice
restores the original visibility. -/
theorem claim_toggle_window_involution (s : OverlayState) :
    (toggleWindow (toggleWindow s)).mainWindow = s.mainWindow
    ∧ ∀ v : Bool, s.mainWindow = some v →
        (toggleWindow s).mainWindow = some (!v)
        ∧ (toggleWindow s).stateIsVisible = !v := by
  cases s with
  | mk mw vis foc =>
    cases mw with
    | none => simp [toggleWindow]
    | some v => cases v <;> simp [toggleWindow]

/-- Witness for C10: toggling a visible window hides it and records
`isVisible = false`. -/
theorem claim_toggle_window_involution_witness :
    (toggleWindow overlayVisible).mainWindow = some (!true)
    ∧ (toggleWindow overlayVisible).stateIsVisible = !true :=
  (claim_toggle_window_involution overlayVisible).2 true rfl
